import Mathlib

/-!
Shallow embedding of the relation-discovery engine of LIReC
(src/LIReC/jobs/job_poly_pslq.py), together with theorems checking the
natural-language specification against it.

External collaborators that live outside the embedded source — the database
accessors (`LIReC_DB`, `get_consts`, `get_consts_from_query`) and the numeric
utilities from `LIReC.lib.pslq_utils` (`relation_is_new`, `check_consts`,
`get_exponents`) — are abstracted as parameters collected in an `Env` record.
The SQLAlchemy session is modelled by explicit state: a persisted `store`,
a `pending` set of added-but-uncommitted records (identity-based, so adding
an already-persistent or already-pending object is a no-op, as in SQLAlchemy),
and a failure oracle `commitFails` indexed by a running commit-attempt counter.
Log output is modelled structurally as a list of (level, message) entries.
-/

namespace LIReC

/-- A constant from the catalog; only its identity is relevant to the engine logic. -/
structure Constant where
  const_id : Nat
deriving DecidableEq, Repr

/-- A relation record; only its identity is relevant to commit and novelty bookkeeping. -/
structure Relation where
  rel_id : Nat
deriving DecidableEq, Repr

/-- Logging levels used by the job logger. -/
inductive Level where
  | debug
  | info
  | warn
  | error
deriving DecidableEq, Repr

/-- Structured renditions of the log messages emitted by the job module. -/
inductive LogMsg where
  | noFilters
  | unsupportedFilter (t : String)
  | checkingAgainst (total : Nat)
  | degreeReduced (d : Nat)
  | checkingConsts (ids : List Nat)
  | foundRelations (ids : List Nat)
  | commitFailedOnce
  | commitFailedFinal
  | finished (n : Nat)
  | commitDone
  | exceptionInJob
  | workerFailed
  | totalFound (n : Nat)
deriving DecidableEq, Repr

abbrev LogEntry := Level × LogMsg

/-- The Python exceptions the embedding distinguishes: the RuntimeError raised by
CPython when a dict is resized during iteration over its keys, and the
UnboundLocalError raised when `new_relations` is read without ever being assigned. -/
inductive PyErr where
  | dictChangedSize
  | unboundNewRelations
deriving DecidableEq, Repr

def SUPPORTED_TYPES : List String := ["Named", "PcfCanonical"]

def DEFAULT_CONST_COUNT : Nat := 1

def DEFAULT_DEGREE : Nat := 2

def DEFAULT_ORDER : Nat := 1

/-- `filters.pop(k, 0)` on a Python dict (unique keys), modelled on association lists. -/
def dictPop (k : String) (d : List (String × Option Nat)) : List (String × Option Nat) :=
  d.filter (fun p => decide (p.1 ≠ k))

/-- Lines 108-116 of job_poly_pslq.py: iterate over the LIVE key view of `filters`;
an unsupported type logs a warning and is deleted with `del filters[const_type]`,
which changes the dict's size during iteration, so the very next advance of the
key iterator raises RuntimeError in CPython; a supported type missing `count`
gets `DEFAULT_CONST_COUNT`. On success, returns each filter type with its count. -/
def processFilters : List (String × Option Nat) → Except (PyErr × List LogEntry) (List (String × Nat))
  | [] => .ok []
  | (k, cnt) :: rest =>
    if k ∈ SUPPORTED_TYPES then
      match processFilters rest with
      | .ok fs => .ok ((k, cnt.getD DEFAULT_CONST_COUNT) :: fs)
      | .error e => .error e
    else
      .error (.dictChangedSize, [(Level.warn, LogMsg.unsupportedFilter k)])

/-- Python truthiness defaulting `x if x else d` for an optional nonnegative int:
both `None` and `0` fall back to the default. -/
def pyOrDefault (o : Option Nat) (d : Nat) : Nat :=
  match o with
  | some (n + 1) => n + 1
  | _ => d

def effOrder (order : Option Nat) : Nat := pyOrDefault order DEFAULT_ORDER

/-- Line 117: `total_consts = sum(c['count'] for c in filters.values())`. -/
def totalConsts (fs : List (String × Nat)) : Nat := (fs.map Prod.snd).sum

/-- Lines 118-123: defaulting of `degree` followed by the clamp
`if degree > total_consts * order: degree = total_consts * order`. -/
def effDegree (degree order : Option Nat) (total : Nat) : Nat :=
  let d := pyOrDefault degree DEFAULT_DEGREE
  if total * effOrder order < d then total * effOrder order else d

/-- itertools.combinations: all length-`n` subsequences of the input,
in the order itertools produces them. -/
def combinations {α : Type} : Nat → List α → List (List α)
  | 0, _ => [[]]
  | _ + 1, [] => []
  | n + 1, x :: xs => (combinations n xs).map (fun c => x :: c) ++ combinations (n + 1) xs

/-- itertools.product over a list of lists (leftmost factor varies slowest). -/
def pyProduct {α : Type} : List (List α) → List (List α)
  | [] => [[]]
  | l :: ls => l.flatMap (fun x => (pyProduct ls).map (fun t => x :: t))

/-- The engine's external collaborators, abstracted:
`isNew` is `pslq_utils.relation_is_new` (args: constants, degree, order, known
relations), `kernel` is `pslq_utils.check_consts` specialised to the run's fixed
exponents/degree/order, `commitFails` is the transient-failure oracle for the
n-th commit attempt of the run, and `eligible` gives the per-type eligible
constants produced by `get_consts` / `get_consts_from_query`. -/
structure Env where
  isNew : List Constant → Nat → Nat → List Relation → Bool
  kernel : List Constant → List Relation
  commitFails : Nat → Bool
  eligible : String → List Constant

/-- Ghost record of one invocation of the numeric kernel: the flattened candidate
tuple, the degree/order in force, and the known-relations list at that moment. -/
structure Invocation where
  consts : List Constant
  degree : Nat
  order : Nat
  oldRels : List Relation
deriving DecidableEq, Repr

/-- The evolving state of one `execute_job` run: the in-memory `old_relations`
list, the persisted store, the session's pending (added, uncommitted) records,
the running commit-attempt counter, the log, the ghost kernel-invocation trace,
and the current value of the local variable `new_relations` (none = unassigned). -/
structure RunState where
  oldRels : List Relation
  store : List Relation
  pending : List Relation
  attempts : Nat
  log : List LogEntry
  invoked : List Invocation
  lastNew : Option (List Relation)
deriving DecidableEq, Repr

/-- `db.session.add_all(new_relations)`: objects that are already persisted or
already pending are no-ops; genuinely new objects become pending. -/
def addAll (rels : List Relation) (st : RunState) : RunState :=
  { st with pending := st.pending ++ rels.filter (fun r => decide (r ∉ st.store) && decide (r ∉ st.pending)) }

/-- One iteration of the `while try_count < 3` body (lines 143-156): add_all then
commit; on failure, rollback (pending records are expunged) and log — a warning
on the first iteration, an error on the second; on success the committed records
become persistent and `old_relations += new_relations` runs. -/
def commitAttempt (env : Env) (first : Bool) (rels : List Relation) (st : RunState) : RunState :=
  let st1 := addAll rels st
  if env.commitFails st1.attempts then
    { st1 with
      pending := []
      attempts := st1.attempts + 1
      log := st1.log ++ [if first then (Level.warn, LogMsg.commitFailedOnce) else (Level.error, LogMsg.commitFailedFinal)] }
  else
    { st1 with
      store := st1.store ++ st1.pending
      pending := []
      oldRels := st1.oldRels ++ rels
      attempts := st1.attempts + 1 }

/-- The commit loop: `try_count` starts at 1 and the loop runs `while try_count < 3`
with no break, so the body executes exactly twice (try_count = 1 and 2). -/
def commitBatch (env : Env) (rels : List Relation) (st : RunState) : RunState :=
  commitAttempt env false rels (commitAttempt env true rels st)

/-- Loop body for one flattened candidate tuple (lines 134-156): novelty check
first; on novelty, a debug log, the kernel call (always assigned to
`new_relations`), and, if any relations were found, an info log and the commit loop. -/
def processCandidate (env : Env) (degree order : Nat) (st : RunState) (consts : List Constant) : RunState :=
  if env.isNew consts degree order st.oldRels then
    let st1 := { st with
      invoked := st.invoked ++ [Invocation.mk consts degree order st.oldRels]
      log := st.log ++ [(Level.debug, LogMsg.checkingConsts (consts.map Constant.const_id))] }
    let rels := env.kernel consts
    let st2 := { st1 with lastNew := some rels }
    if rels.isEmpty then st2
    else commitBatch env rels
      { st2 with log := st2.log ++ [(Level.info, LogMsg.foundRelations (consts.map Constant.const_id))] }
  else st

/-- Lines 126 and 134-135: per retained filter type, all `count`-sized
combinations of its eligible constants; the Cartesian product across types;
each product element flattened into a single candidate tuple. -/
def candidateTuples (env : Env) (fs : List (String × Nat)) : List (List Constant) :=
  (pyProduct (fs.map (fun p => combinations p.2 (env.eligible p.1)))).map List.flatten

def initState (store0 : List Relation) (log : List LogEntry) : RunState :=
  { oldRels := store0
    store := store0
    pending := []
    attempts := 0
    log := log
    invoked := []
    lastNew := none }

/-- Lines 120-123: the log entries written between filter processing and the
candidate loop — the `checking against ...` info line and, when the clamp
fires, the `redundant degree detected! reducing to ...` line. -/
def runLog0 (degree order : Option Nat) (total : Nat) : List LogEntry :=
  [(Level.info, LogMsg.checkingAgainst total)] ++
  (if total * effOrder order < pyOrDefault degree DEFAULT_DEGREE
   then [(Level.info, LogMsg.degreeReduced (effDegree degree order total))] else [])

/-- The state after the candidate loop (lines 134-156) has run over every
flattened candidate tuple, starting from the persisted store `store0`
(`old_relations = db.session.query(models.Relation).all()`). -/
def loopState (env : Env) (store0 : List Relation) (fs : List (String × Nat))
    (degree order : Option Nat) : RunState :=
  (candidateTuples env fs).foldl
    (processCandidate env (effDegree degree order (totalConsts fs)) (effOrder order))
    (initState store0 (runLog0 degree order (totalConsts fs)))

/-- The state after the loop plus the two final info lines
(`finished - found ... results` and `Commit done`, lines 162-165). -/
def finalState (env : Env) (store0 : List Relation) (fs : List (String × Nat))
    (degree order : Option Nat) : RunState :=
  let stF := loopState env store0 fs degree order
  { stF with log := stF.log ++
      [(Level.info, LogMsg.finished (stF.oldRels.length - store0.length)),
       (Level.info, LogMsg.commitDone)] }

/-- Lines 117-167 for a successfully processed filter set: the loop runs, then
`return len(new_relations)` raises UnboundLocalError when the loop never
assigned `new_relations`. -/
def mainRun (env : Env) (store0 : List Relation) (fs : List (String × Nat))
    (degree order : Option Nat) : Except (PyErr × RunState) (Nat × RunState) :=
  match (finalState env store0 fs degree order).lastNew with
  | none => .error (.unboundNewRelations, finalState env store0 fs degree order)
  | some rels => .ok (rels.length, finalState env store0 fs degree order)

/-- The body of `execute_job` inside the top-level try (lines 102-167). -/
def executeBody (env : Env) (store0 : List Relation) (filters : List (String × Option Nat))
    (degree order : Option Nat) : Except (PyErr × RunState) (Nat × RunState) :=
  let fs0 := dictPop "global" filters
  if fs0.isEmpty then
    .ok (0, initState store0 [(Level.error, LogMsg.noFilters)])
  else
    match processFilters fs0 with
    | .error (e, lg) => .error (e, initState store0 lg)
    | .ok fs => mainRun env store0 fs degree order

/-- What a single `execute_job` call leaves behind: its return value
(`none` = Python `None`, the absent result), the persisted store, the log,
and the ghost kernel-invocation trace. -/
structure JobOutcome where
  result : Option Nat
  store : List Relation
  log : List LogEntry
  invoked : List Invocation
deriving DecidableEq, Repr

/-- Lines 100-170: the whole body is wrapped in try/except; the bare except
logs the exception at error level and falls off the end, returning None. -/
def execute_job (env : Env) (store0 : List Relation) (filters : List (String × Option Nat))
    (degree order : Option Nat) : JobOutcome :=
  match executeBody env store0 filters degree order with
  | .ok (n, st) => { result := some n, store := st.store, log := st.log, invoked := st.invoked }
  | .error (_, st) =>
    { result := none
      store := st.store
      log := st.log ++ [(Level.error, LogMsg.exceptionInJob)]
      invoked := st.invoked }

/-- Python truthiness of a worker's partial result: None and 0 are falsy. -/
def pyTruthy : Option Nat → Bool
  | some (_ + 1) => true
  | _ => false

/-- `sum(r for r in results if r)`: falsy entries contribute nothing. -/
def truthySum (results : List (Option Nat)) : Nat :=
  (results.map (fun r => r.getD 0)).sum

/-- Lines 172-175: `summarize_results` logs a fixed info message when
`not all(results)`, and the sum of the truthy per-worker results. -/
def summarize_results (results : List (Option Nat)) : List LogEntry :=
  (if results.all pyTruthy then [] else [(Level.info, LogMsg.workerFailed)]) ++
  [(Level.info, LogMsg.totalFound (truthySum results))]

/-- Written from the spec's words for comparison (claim C4): the number of
sub-jobs that failed, i.e. whose partial result is absent or falsy. -/
def specFailedCount (results : List (Option Nat)) : Nat :=
  (results.filter (fun r => !pyTruthy r)).length

/-! ### Basic lemmas about the commit loop and the candidate loop -/

lemma commitAttempt_invoked (env : Env) (first : Bool) (rels : List Relation) (st : RunState) :
    (commitAttempt env first rels st).invoked = st.invoked := by
  unfold commitAttempt addAll
  dsimp only
  split <;> rfl

lemma commitAttempt_lastNew (env : Env) (first : Bool) (rels : List Relation) (st : RunState) :
    (commitAttempt env first rels st).lastNew = st.lastNew := by
  unfold commitAttempt addAll
  dsimp only
  split <;> rfl

lemma commitAttempt_log_mono (env : Env) (first : Bool) (rels : List Relation) (st : RunState)
    {e : LogEntry} (h : e ∈ st.log) : e ∈ (commitAttempt env first rels st).log := by
  unfold commitAttempt addAll
  dsimp only
  split
  · exact List.mem_append_left _ h
  · exact h

lemma commitBatch_invoked (env : Env) (rels : List Relation) (st : RunState) :
    (commitBatch env rels st).invoked = st.invoked := by
  unfold commitBatch
  rw [commitAttempt_invoked, commitAttempt_invoked]

lemma commitBatch_lastNew (env : Env) (rels : List Relation) (st : RunState) :
    (commitBatch env rels st).lastNew = st.lastNew := by
  unfold commitBatch
  rw [commitAttempt_lastNew, commitAttempt_lastNew]

lemma commitBatch_log_mono (env : Env) (rels : List Relation) (st : RunState)
    {e : LogEntry} (h : e ∈ st.log) : e ∈ (commitBatch env rels st).log :=
  commitAttempt_log_mono _ _ _ _ (commitAttempt_log_mono _ _ _ _ h)

/-- The loop body either leaves the invocation trace alone (novelty check failed)
or appends exactly the invocation it just performed, and then the novelty check
had returned true on the then-current known-relations list. -/
lemma processCandidate_invoked (env : Env) (d o : Nat) (st : RunState) (c : List Constant) :
    (processCandidate env d o st c).invoked = st.invoked ∨
      ((processCandidate env d o st c).invoked = st.invoked ++ [Invocation.mk c d o st.oldRels]
        ∧ env.isNew c d o st.oldRels = true) := by
  unfold processCandidate
  dsimp only
  split
  · next hnew =>
    right
    refine ⟨?_, hnew⟩
    split
    · rfl
    · rw [commitBatch_invoked]
  · left
    rfl

lemma processCandidate_lastNew (env : Env) (d o : Nat) (st : RunState) (c : List Constant) :
    (processCandidate env d o st c).lastNew = st.lastNew ∨
      (processCandidate env d o st c).lastNew = some (env.kernel c) := by
  unfold processCandidate
  dsimp only
  split
  · right
    split
    · rfl
    · rw [commitBatch_lastNew]
  · left
    rfl

lemma processCandidate_log_mono (env : Env) (d o : Nat) (st : RunState) (c : List Constant)
    {e : LogEntry} (h : e ∈ st.log) : e ∈ (processCandidate env d o st c).log := by
  unfold processCandidate
  dsimp only
  split
  · split
    · exact List.mem_append_left _ h
    · exact commitBatch_log_mono _ _ _ (List.mem_append_left _ (List.mem_append_left _ h))
  · exact h

lemma foldl_log_mono (env : Env) (d o : Nat) :
    ∀ (cands : List (List Constant)) (st : RunState) {e : LogEntry}, e ∈ st.log →
      e ∈ (cands.foldl (processCandidate env d o) st).log
  | [], _, _, h => h
  | c :: cs, st, _, h =>
    foldl_log_mono env d o cs (processCandidate env d o st c)
      (processCandidate_log_mono env d o st c h)

/-- Any property of invocation records that holds of every invocation the loop
body can append is preserved by the whole candidate loop. -/
lemma foldl_invoked_pred (env : Env) (d o : Nat) (P : Invocation → Prop)
    (hP : ∀ c old, env.isNew c d o old = true → P (Invocation.mk c d o old)) :
    ∀ (cands : List (List Constant)) (st : RunState),
      (∀ inv ∈ st.invoked, P inv) →
      ∀ inv ∈ (cands.foldl (processCandidate env d o) st).invoked, P inv
  | [], _, h => h
  | c :: cs, st, h => by
    refine foldl_invoked_pred env d o P hP cs (processCandidate env d o st c) ?_
    intro inv hinv
    rcases processCandidate_invoked env d o st c with heq | ⟨heq, hnew⟩
    · rw [heq] at hinv
      exact h inv hinv
    · rw [heq] at hinv
      rcases List.mem_append.mp hinv with h1 | h2
      · exact h inv h1
      · rw [List.mem_singleton.mp h2]
        exact hP c st.oldRels hnew

/-- Invariant tying the local variable `new_relations` to the invocation trace:
it holds the kernel's output for the most recent invocation, and is unassigned
iff the kernel was never invoked. -/
def lastMatches (env : Env) (st : RunState) : Prop :=
  match st.invoked.getLast? with
  | none => st.lastNew = none
  | some inv => st.lastNew = some (env.kernel inv.consts)

lemma processCandidate_lastMatches (env : Env) (d o : Nat) (st : RunState) (c : List Constant)
    (h : lastMatches env st) : lastMatches env (processCandidate env d o st c) := by
  unfold processCandidate
  dsimp only
  split
  · next hnew =>
    split
    · unfold lastMatches
      simp only [List.getLast?_concat]
    · unfold lastMatches
      rw [commitBatch_invoked, commitBatch_lastNew]
      simp only [List.getLast?_concat]
  · exact h

lemma foldl_lastMatches (env : Env) (d o : Nat) :
    ∀ (cands : List (List Constant)) (st : RunState), lastMatches env st →
      lastMatches env (cands.foldl (processCandidate env d o) st)
  | [], _, h => h
  | c :: cs, st, h =>
    foldl_lastMatches env d o cs (processCandidate env d o st c)
      (processCandidate_lastMatches env d o st c h)

lemma initState_lastMatches (env : Env) (store0 : List Relation) (lg : List LogEntry) :
    lastMatches env (initState store0 lg) := by
  unfold lastMatches initState
  rfl

lemma loopState_lastMatches (env : Env) (store0 : List Relation) (fs : List (String × Nat))
    (degree order : Option Nat) : lastMatches env (loopState env store0 fs degree order) :=
  foldl_lastMatches _ _ _ _ _ (initState_lastMatches _ _ _)

lemma finalState_invoked (env : Env) (store0 : List Relation) (fs : List (String × Nat))
    (degree order : Option Nat) :
    (finalState env store0 fs degree order).invoked =
      (loopState env store0 fs degree order).invoked := rfl

lemma finalState_lastNew (env : Env) (store0 : List Relation) (fs : List (String × Nat))
    (degree order : Option Nat) :
    (finalState env store0 fs degree order).lastNew =
      (loopState env store0 fs degree order).lastNew := rfl

lemma finalState_lastMatches (env : Env) (store0 : List Relation) (fs : List (String × Nat))
    (degree order : Option Nat) : lastMatches env (finalState env store0 fs degree order) := by
  unfold lastMatches
  rw [finalState_invoked, finalState_lastNew]
  exact loopState_lastMatches env store0 fs degree order

/-! ### Branch analysis of `execute_job` -/

lemma execute_job_of_empty (env : Env) (store0 : List Relation)
    (filters : List (String × Option Nat)) (degree order : Option Nat)
    (h0 : (dictPop "global" filters).isEmpty = true) :
    execute_job env store0 filters degree order =
      { result := some 0
        store := store0
        log := [(Level.error, LogMsg.noFilters)]
        invoked := [] } := by
  unfold execute_job executeBody
  simp only [h0, if_true]
  rfl

lemma execute_job_of_filtersErr (env : Env) (store0 : List Relation)
    (filters : List (String × Option Nat)) (degree order : Option Nat)
    (e : PyErr) (lg : List LogEntry)
    (h0 : (dictPop "global" filters).isEmpty = false)
    (hfs : processFilters (dictPop "global" filters) = .error (e, lg)) :
    execute_job env store0 filters degree order =
      { result := none
        store := store0
        log := lg ++ [(Level.error, LogMsg.exceptionInJob)]
        invoked := [] } := by
  unfold execute_job executeBody
  simp only [h0, Bool.false_eq_true, if_false, hfs]
  rfl

lemma execute_job_of_ok (env : Env) (store0 : List Relation)
    (filters : List (String × Option Nat)) (degree order : Option Nat)
    (fs : List (String × Nat))
    (h0 : (dictPop "global" filters).isEmpty = false)
    (hfs : processFilters (dictPop "global" filters) = .ok fs) :
    execute_job env store0 filters degree order =
      (match (finalState env store0 fs degree order).lastNew with
       | none =>
         { result := none
           store := (finalState env store0 fs degree order).store
           log := (finalState env store0 fs degree order).log ++ [(Level.error, LogMsg.exceptionInJob)]
           invoked := (finalState env store0 fs degree order).invoked }
       | some rels =>
         { result := some rels.length
           store := (finalState env store0 fs degree order).store
           log := (finalState env store0 fs degree order).log
           invoked := (finalState env store0 fs degree order).invoked }) := by
  unfold execute_job executeBody mainRun
  simp only [h0, Bool.false_eq_true, if_false, hfs]
  cases (finalState env store0 fs degree order).lastNew <;> rfl

/-! ### Combinatorics of the batch candidate enumeration -/

lemma mem_combinations {α : Type} :
    ∀ (n : Nat) (l c : List α), c ∈ combinations n l ↔ c ∈ List.sublistsLen n l
  | 0, l, c => by
    cases l <;> simp [combinations]
  | n + 1, [], c => by
    simp [combinations]
  | n + 1, x :: xs, c => by
    simp only [combinations, List.sublistsLen_succ_cons, List.mem_append, List.mem_map,
      mem_combinations n xs, mem_combinations (n + 1) xs]
    exact or_comm

lemma mem_combinations_iff {α : Type} (n : Nat) (l c : List α) :
    c ∈ combinations n l ↔ c.Sublist l ∧ c.length = n := by
  rw [mem_combinations]
  exact List.mem_sublistsLen

lemma mem_pyProduct {α : Type} :
    ∀ (ls : List (List α)) (t : List α),
      t ∈ pyProduct ls ↔ List.Forall₂ (fun x l => x ∈ l) t ls
  | [], t => by
    simp [pyProduct, List.forall₂_nil_right_iff]
  | l :: ls, t => by
    simp only [pyProduct, List.mem_flatMap, List.mem_map, List.forall₂_cons_right_iff]
    constructor
    · rintro ⟨x, hx, t', ht', rfl⟩
      exact ⟨x, t', hx, (mem_pyProduct ls t').mp ht', rfl⟩
    · rintro ⟨x, t', hx, ht', rfl⟩
      exact ⟨x, hx, t', (mem_pyProduct ls t').mpr ht', rfl⟩

/-! ### Claim C8 -/

/-- C8: for every filters mapping that is empty after removing the reserved
`global` entry, `execute_job` logs at error level and returns the zero result:
it aborts the job without raising or crashing. -/
theorem empty_filters_zero (env : Env) (store0 : List Relation)
    (filters : List (String × Option Nat)) (degree order : Option Nat)
    (h : dictPop "global" filters = []) :
    (execute_job env store0 filters degree order).result = some 0
    ∧ (Level.error, LogMsg.noFilters) ∈ (execute_job env store0 filters degree order).log := by
  have h0 : (dictPop "global" filters).isEmpty = true := by rw [h]; rfl
  rw [execute_job_of_empty env store0 filters degree order h0]
  exact ⟨rfl, by simp⟩

/-- Concrete environment for the C8 witness. -/
def envC8 : Env :=
  { isNew := fun _ _ _ _ => false
    kernel := fun _ => []
    commitFails := fun _ => false
    eligible := fun _ => [] }

theorem empty_filters_zero_w :
    dictPop "global" [("global", some 50)] = []
    ∧ (execute_job envC8 [] [("global", some 50)] none none).result = some 0
    ∧ (Level.error, LogMsg.noFilters) ∈ (execute_job envC8 [] [("global", some 50)] none none).log :=
  ⟨by decide,
   (empty_filters_zero envC8 [] [("global", some 50)] none none (by decide)).1,
   (empty_filters_zero envC8 [] [("global", some 50)] none none (by decide)).2⟩

/-! ### Claim C9 -/

/-- C9: in any run whose filter set is non-empty after removing `global` and
passes filter processing, if the kernel is never invoked (no candidate ever
passed the novelty check, including an empty candidate enumeration), then
`execute_job` returns the absent result None — because `new_relations` is
never assigned before `return len(new_relations)` — and not the count 0. -/
theorem no_novelty_returns_none (env : Env) (store0 : List Relation)
    (filters : List (String × Option Nat)) (degree order : Option Nat)
    (h0 : (dictPop "global" filters).isEmpty = false)
    (h1 : ∃ fs, processFilters (dictPop "global" filters) = .ok fs)
    (h2 : (execute_job env store0 filters degree order).invoked = []) :
    (execute_job env store0 filters degree order).result = none := by
  obtain ⟨fs, hfs⟩ := h1
  rw [execute_job_of_ok env store0 filters degree order fs h0 hfs] at h2 ⊢
  have hlm := finalState_lastMatches env store0 fs degree order
  unfold lastMatches at hlm
  cases hl : (finalState env store0 fs degree order).lastNew with
  | none => simp only [hl]
  | some rels =>
    exfalso
    simp only [hl] at h2
    cases hgl : (finalState env store0 fs degree order).invoked.getLast? with
    | none =>
      rw [hgl] at hlm
      rw [hlm] at hl
      cases hl
    | some inv =>
      rw [h2] at hgl
      cases hgl

/-- Concrete environment for the C9 witness: the novelty check always fails. -/
def envC9 : Env :=
  { isNew := fun _ _ _ _ => false
    kernel := fun _ => []
    commitFails := fun _ => false
    eligible := fun _ => [⟨0⟩] }

theorem no_novelty_returns_none_w :
    (dictPop "global" [("Named", some 1)]).isEmpty = false
    ∧ (execute_job envC9 [] [("Named", some 1)] none none).invoked = []
    ∧ (execute_job envC9 [] [("Named", some 1)] none none).result = none :=
  ⟨by decide, by decide,
   no_novelty_returns_none envC9 [] [("Named", some 1)] none none (by decide)
     ⟨[("Named", 1)], rfl⟩ (by decide)⟩

/-! ### Claim C6 -/

/-- C6: the numeric kernel (`check_consts`) is only ever invoked on a candidate
tuple for which the novelty check (`relation_is_new`, against the known-relations
list current at that moment) returned true first; it is never invoked on a
candidate the novelty check rejected. -/
theorem kernel_only_after_novelty (env : Env) (store0 : List Relation)
    (filters : List (String × Option Nat)) (degree order : Option Nat) :
    ∀ inv ∈ (execute_job env store0 filters degree order).invoked,
      env.isNew inv.consts inv.degree inv.order inv.oldRels = true := by
  intro inv hinv
  cases h0 : (dictPop "global" filters).isEmpty with
  | true =>
    rw [execute_job_of_empty env store0 filters degree order h0] at hinv
    cases hinv
  | false =>
    cases hfs : processFilters (dictPop "global" filters) with
    | error p =>
      rw [execute_job_of_filtersErr env store0 filters degree order p.1 p.2 h0
        (by rw [hfs])] at hinv
      cases hinv
    | ok fs =>
      rw [execute_job_of_ok env store0 filters degree order fs h0 hfs] at hinv
      have hinv' : inv ∈ (finalState env store0 fs degree order).invoked := by
        cases hl : (finalState env store0 fs degree order).lastNew <;>
          simpa only [hl] using hinv
      rw [finalState_invoked] at hinv'
      unfold loopState at hinv'
      refine foldl_invoked_pred env _ _
        (fun i => env.isNew i.consts i.degree i.order i.oldRels = true)
        (fun c old h => h) _ _ ?_ inv hinv'
      intro i hi
      cases hi

/-- Concrete environment for the C6 witness: the novelty check always passes. -/
def envC6 : Env :=
  { isNew := fun _ _ _ _ => true
    kernel := fun _ => []
    commitFails := fun _ => false
    eligible := fun _ => [⟨0⟩] }

theorem kernel_only_after_novelty_w :
    (Invocation.mk [⟨0⟩] 1 1 []) ∈ (execute_job envC6 [] [("Named", some 1)] none none).invoked
    ∧ envC6.isNew [⟨0⟩] 1 1 [] = true :=
  ⟨by decide,
   kernel_only_after_novelty envC6 [] [("Named", some 1)] none none
     (Invocation.mk [⟨0⟩] 1 1 []) (by decide)⟩

/-! ### Claim C5 -/

/-- C5: `execute_job` never raises: it returns the absent result None exactly
when its body raised (the whole body is wrapped in try/except), and in that
case the exception is logged at error level. -/
theorem job_never_raises (env : Env) (store0 : List Relation)
    (filters : List (String × Option Nat)) (degree order : Option Nat) :
    ((execute_job env store0 filters degree order).result = none ↔
      ∃ e st, executeBody env store0 filters degree order = .error (e, st))
    ∧ ((∃ e st, executeBody env store0 filters degree order = .error (e, st)) →
        (Level.error, LogMsg.exceptionInJob) ∈ (execute_job env store0 filters degree order).log) := by
  cases hb : executeBody env store0 filters degree order with
  | ok p =>
    obtain ⟨n, st⟩ := p
    have hj : execute_job env store0 filters degree order =
        { result := some n, store := st.store, log := st.log, invoked := st.invoked } := by
      unfold execute_job
      rw [hb]
    constructor
    · rw [hj]
      constructor
      · intro h
        cases h
      · rintro ⟨e, st', he⟩
        cases he
    · rintro ⟨e, st', he⟩
      cases he
  | error p =>
    obtain ⟨e, st⟩ := p
    have hj : execute_job env store0 filters degree order =
        { result := none, store := st.store,
          log := st.log ++ [(Level.error, LogMsg.exceptionInJob)], invoked := st.invoked } := by
      unfold execute_job
      rw [hb]
    refine ⟨?_, fun _ => ?_⟩
    · rw [hj]
      exact ⟨fun _ => ⟨e, st, rfl⟩, fun _ => rfl⟩
    · rw [hj]
      simp

/-- Concrete environment for the C5 witness. -/
def envC5 : Env :=
  { isNew := fun _ _ _ _ => false
    kernel := fun _ => []
    commitFails := fun _ => false
    eligible := fun _ => [] }

theorem job_never_raises_w :
    (∃ e st, executeBody envC5 [] [("Foo", none)] none none = .error (e, st))
    ∧ (Level.error, LogMsg.exceptionInJob) ∈ (execute_job envC5 [] [("Foo", none)] none none).log :=
  ⟨⟨PyErr.dictChangedSize, initState [] [(Level.warn, LogMsg.unsupportedFilter "Foo")], rfl⟩,
   (job_never_raises envC5 [] [("Foo", none)] none none).2
     ⟨PyErr.dictChangedSize, initState [] [(Level.warn, LogMsg.unsupportedFilter "Foo")], rfl⟩⟩

/-! ### Claim C10 -/

/-- C10: whenever `execute_job` returns a numeric result after at least one
kernel invocation, the returned value is the size of the kernel's output for
the LAST invoked candidate (`return len(new_relations)` with `new_relations`
reassigned on every invocation), not the total found over the whole run. -/
theorem returns_last_kernel_batch (env : Env) (store0 : List Relation)
    (filters : List (String × Option Nat)) (degree order : Option Nat) (n : Nat)
    (h : (execute_job env store0 filters degree order).result = some n)
    (h2 : (execute_job env store0 filters degree order).invoked ≠ []) :
    ∃ inv, (execute_job env store0 filters degree order).invoked.getLast? = some inv
      ∧ n = (env.kernel inv.consts).length := by
  cases h0 : (dictPop "global" filters).isEmpty with
  | true =>
    rw [execute_job_of_empty env store0 filters degree order h0] at h2
    exact absurd rfl h2
  | false =>
    cases hfs : processFilters (dictPop "global" filters) with
    | error p =>
      rw [execute_job_of_filtersErr env store0 filters degree order p.1 p.2 h0
        (by rw [hfs])] at h
      cases h
    | ok fs =>
      rw [execute_job_of_ok env store0 filters degree order fs h0 hfs] at h ⊢
      have hlm := finalState_lastMatches env store0 fs degree order
      unfold lastMatches at hlm
      cases hl : (finalState env store0 fs degree order).lastNew with
      | none =>
        simp only [hl] at h
        cases h
      | some rels =>
        simp only [hl] at h ⊢
        have hn : n = rels.length := (Option.some.inj h).symm
        cases hgl : (finalState env store0 fs degree order).invoked.getLast? with
        | none =>
          rw [hgl] at hlm
          rw [hlm] at hl
          cases hl
        | some inv =>
          rw [hgl] at hlm
          rw [hlm] at hl
          exact ⟨inv, rfl, by rw [hn, Option.some.inj hl]⟩

/-- Concrete environment for the C10 witness: two candidates, each yielding one
fresh relation, all commits succeeding. -/
def envC10 : Env :=
  { isNew := fun _ _ _ _ => true
    kernel := fun cs => match cs with | [c] => [⟨c.const_id⟩] | _ => []
    commitFails := fun _ => false
    eligible := fun _ => [⟨0⟩, ⟨1⟩] }

/-- Witness for C10; the extra conjuncts exhibit the undercount: this run
commits two relations to the store but returns 1 (the last kernel batch). -/
theorem returns_last_kernel_batch_w :
    (execute_job envC10 [] [("Named", some 1)] none none).result = some 1
    ∧ (execute_job envC10 [] [("Named", some 1)] none none).store.length = 2
    ∧ ∃ inv, (execute_job envC10 [] [("Named", some 1)] none none).invoked.getLast? = some inv
        ∧ 1 = (envC10.kernel inv.consts).length :=
  ⟨by decide, by decide,
   returns_last_kernel_batch envC10 [] [("Named", some 1)] none none 1 (by decide) (by decide)⟩

/-! ### Claim C7 -/

/-- C7: in batch mode the candidate tuples iterated by `execute_job` are
exactly the flattenings of one order-independent size-`count` combination
(subsequence) of the eligible constants of each retained filter type, one per
type, combined by Cartesian product across the types. -/
theorem batch_candidates (env : Env) (fs : List (String × Nat)) (t : List Constant) :
    t ∈ candidateTuples env fs ↔
      ∃ choice : List (List Constant),
        List.Forall₂ (fun c p => c.Sublist (env.eligible (Prod.fst p)) ∧ c.length = Prod.snd p)
          choice fs
        ∧ t = choice.flatten := by
  unfold candidateTuples
  simp only [List.mem_map]
  constructor
  · rintro ⟨ts, hts, rfl⟩
    rw [mem_pyProduct, List.forall₂_map_right_iff] at hts
    exact ⟨ts, hts.imp (fun a b h => (mem_combinations_iff _ _ _).mp h), rfl⟩
  · rintro ⟨choice, hch, rfl⟩
    refine ⟨choice, ?_, rfl⟩
    rw [mem_pyProduct, List.forall₂_map_right_iff]
    exact hch.imp (fun a b h => (mem_combinations_iff _ _ _).mpr h)

/-- Concrete environment for the C7 witness. -/
def envC7 : Env :=
  { isNew := fun _ _ _ _ => false
    kernel := fun _ => []
    commitFails := fun _ => false
    eligible := fun t => if t = "Named" then [⟨0⟩, ⟨1⟩] else [⟨2⟩] }

theorem batch_candidates_w :
    [(⟨0⟩ : Constant), ⟨1⟩, ⟨2⟩] ∈ candidateTuples envC7 [("Named", 2), ("PcfCanonical", 1)] :=
  (batch_candidates envC7 [("Named", 2), ("PcfCanonical", 1)] [⟨0⟩, ⟨1⟩, ⟨2⟩]).mpr
    ⟨[[⟨0⟩, ⟨1⟩], [⟨2⟩]],
     List.Forall₂.cons ⟨by decide, rfl⟩ (List.Forall₂.cons ⟨by decide, rfl⟩ List.Forall₂.nil),
     rfl⟩

/-! ### Claim C1 -/

/-- Concrete environment for the C1 counterexample: commit attempts 0 and 1
fail, attempt 2 (and later) would succeed. -/
def envC1 : Env :=
  { isNew := fun _ _ _ _ => true
    kernel := fun _ => [⟨0⟩]
    commitFails := fun n => decide (n < 2)
    eligible := fun _ => [⟨0⟩] }

/-- C1 counterexample: a commit that fails exactly twice and would succeed on a
third attempt does NOT leave the relations present in the store — the loop
(`try_count = 1; while try_count < 3`) makes only 2 attempts, so the claimed
third attempt never happens; the final error is logged and the job continues. -/
theorem commit_two_failures_cex :
    envC1.commitFails 0 = true ∧ envC1.commitFails 1 = true ∧ envC1.commitFails 2 = false
    ∧ (execute_job envC1 [] [("Named", some 1)] none none).store = []
    ∧ (Level.error, LogMsg.commitFailedFinal) ∈ (execute_job envC1 [] [("Named", some 1)] none none).log
    ∧ (execute_job envC1 [] [("Named", some 1)] none none).result = some 1 := by
  decide

/-- C1 as amended: the commit loop makes exactly 2 commit attempts per batch,
rolling back (expunging pending records) after each failure; when at least one
of the two attempts succeeds the relations end up present exactly once in the
store with no duplicate append; when both fail, the store is unchanged and a
warning then an error are logged, and the loop returns so the job continues. -/
theorem commit_retry_behavior (env : Env) (rels : List Relation) (st : RunState)
    (hp : st.pending = []) (hn : rels.Nodup) (hf : ∀ r ∈ rels, r ∉ st.store) :
    (commitBatch env rels st).attempts = st.attempts + 2
    ∧ (commitBatch env rels st).pending = []
    ∧ ((env.commitFails st.attempts = false ∨ env.commitFails (st.attempts + 1) = false) →
        ∀ r ∈ rels, (commitBatch env rels st).store.count r = 1)
    ∧ (env.commitFails st.attempts = true → env.commitFails (st.attempts + 1) = true →
        (commitBatch env rels st).store = st.store
        ∧ (Level.warn, LogMsg.commitFailedOnce) ∈ (commitBatch env rels st).log
        ∧ (Level.error, LogMsg.commitFailedFinal) ∈ (commitBatch env rels st).log) := by
  have hfil : rels.filter (fun r => decide (r ∉ st.store) && decide (r ∉ st.pending)) = rels :=
    List.filter_eq_self.mpr (fun r hr => by simp [hp, hf r hr])
  cases f0 : env.commitFails st.attempts with
  | false =>
    have e1 : commitAttempt env true rels st =
        { st with
          store := st.store ++ rels
          pending := []
          oldRels := st.oldRels ++ rels
          attempts := st.attempts + 1 } := by
      unfold commitAttempt addAll
      dsimp only
      rw [hfil, hp, f0]
      simp
    have hfil2 : rels.filter (fun r => decide (r ∉ st.store ++ rels) && decide (r ∉ ([] : List Relation))) = [] := by
      rw [List.filter_eq_nil_iff]
      intro r hr
      simp [List.mem_append, hr]
    cases f1 : env.commitFails (st.attempts + 1) with
    | false =>
      have e2 : commitBatch env rels st =
          { st with
            store := st.store ++ rels
            pending := []
            oldRels := (st.oldRels ++ rels) ++ rels
            attempts := st.attempts + 1 + 1 } := by
        unfold commitBatch
        rw [e1]
        unfold commitAttempt addAll
        dsimp only
        rw [hfil2, f1]
        simp
      rw [e2]
      refine ⟨rfl, rfl, fun _ r hr => ?_, fun h => by simp at h⟩
      dsimp only
      rw [List.count_append, List.count_eq_zero.mpr (hf r hr), List.count_eq_one_of_mem hn hr]
    | true =>
      have e2 : commitBatch env rels st =
          { st with
            store := st.store ++ rels
            pending := []
            oldRels := st.oldRels ++ rels
            attempts := st.attempts + 1 + 1
            log := st.log ++ [(Level.error, LogMsg.commitFailedFinal)] } := by
        unfold commitBatch
        rw [e1]
        unfold commitAttempt addAll
        dsimp only
        rw [hfil2, f1]
        simp
      rw [e2]
      refine ⟨rfl, rfl, fun _ r hr => ?_, fun h => by simp at h⟩
      dsimp only
      rw [List.count_append, List.count_eq_zero.mpr (hf r hr), List.count_eq_one_of_mem hn hr]
  | true =>
    have e1 : commitAttempt env true rels st =
        { st with
          pending := []
          attempts := st.attempts + 1
          log := st.log ++ [(Level.warn, LogMsg.commitFailedOnce)] } := by
      unfold commitAttempt addAll
      dsimp only
      rw [hfil, hp, f0]
      simp
    have hfil3 : rels.filter (fun r => decide (r ∉ st.store) && decide (r ∉ ([] : List Relation))) = rels := by
      rw [List.filter_eq_self]
      intro r hr
      simp [hf r hr]
    cases f1 : env.commitFails (st.attempts + 1) with
    | false =>
      have e2 : commitBatch env rels st =
          { st with
            store := st.store ++ rels
            pending := []
            oldRels := st.oldRels ++ rels
            attempts := st.attempts + 1 + 1
            log := st.log ++ [(Level.warn, LogMsg.commitFailedOnce)] } := by
        unfold commitBatch
        rw [e1]
        unfold commitAttempt addAll
        dsimp only
        rw [hfil3, f1]
        simp
      rw [e2]
      refine ⟨rfl, rfl, fun _ r hr => ?_, fun _ h => by simp at h⟩
      dsimp only
      rw [List.count_append, List.count_eq_zero.mpr (hf r hr), List.count_eq_one_of_mem hn hr]
    | true =>
      have e2 : commitBatch env rels st =
          { st with
            pending := []
            attempts := st.attempts + 1 + 1
            log := (st.log ++ [(Level.warn, LogMsg.commitFailedOnce)])
              ++ [(Level.error, LogMsg.commitFailedFinal)] } := by
        unfold commitBatch
        rw [e1]
        unfold commitAttempt addAll
        dsimp only
        rw [hfil3, f1]
        simp
      rw [e2]
      refine ⟨rfl, rfl, fun h r hr => ?_, fun _ _ => ⟨rfl, by simp, by simp⟩⟩
      rcases h with h | h
      · simp at h
      · simp at h

/-- Concrete environment for the C1 amended witness: the first commit attempt
fails, the second succeeds. -/
def envC1b : Env :=
  { isNew := fun _ _ _ _ => true
    kernel := fun _ => [⟨0⟩]
    commitFails := fun n => decide (n = 0)
    eligible := fun _ => [⟨0⟩] }

theorem commit_retry_behavior_w :
    ([(⟨5⟩ : Relation)].Nodup
      ∧ envC1b.commitFails 0 = true ∧ envC1b.commitFails 1 = false)
    ∧ (commitBatch envC1b [⟨5⟩] (initState [] [])).store.count ⟨5⟩ = 1
    ∧ (commitBatch envC1b [⟨5⟩] (initState [] [])).attempts = 2 :=
  ⟨⟨by decide, by decide, by decide⟩,
   (commit_retry_behavior envC1b [⟨5⟩] (initState [] []) rfl (by decide) (by decide)).2.2.1
     (Or.inr (by decide)) ⟨5⟩ (by decide),
   (commit_retry_behavior envC1b [⟨5⟩] (initState [] []) rfl (by decide) (by decide)).1⟩

/-! ### Claim C2 -/

/-- Concrete environment for C2. -/
def envC2 : Env :=
  { isNew := fun _ _ _ _ => true
    kernel := fun _ => []
    commitFails := fun _ => false
    eligible := fun _ => [⟨0⟩] }

/-- C2 (code bug evaluated at the failing input): with an unsupported filter
type alongside a supported one, the warning IS logged and the entry deleted,
but the deletion resizes the dict under the live key iterator, so the job
aborts with the absent result — the remaining supported filter type is never
processed (no candidate is ever enumerated), contrary to the claim that the
job continues. -/
theorem unsupported_filter_aborts :
    (execute_job envC2 [] [("Foo", none), ("Named", some 1)] none none).result = none
    ∧ (Level.warn, LogMsg.unsupportedFilter "Foo") ∈
        (execute_job envC2 [] [("Foo", none), ("Named", some 1)] none none).log
    ∧ (Level.error, LogMsg.exceptionInJob) ∈
        (execute_job envC2 [] [("Foo", none), ("Named", some 1)] none none).log
    ∧ (execute_job envC2 [] [("Foo", none), ("Named", some 1)] none none).invoked = [] := by
  decide

/-! ### Claim C3 -/

/-- Concrete environment for C3. -/
def envC3 : Env :=
  { isNew := fun _ _ _ _ => true
    kernel := fun _ => []
    commitFails := fun _ => false
    eligible := fun _ => [⟨0⟩, ⟨1⟩] }

/-- C3 counterexample: with n_vars = 2, order = 2, requested degree = 5
(which exceeds n_vars * order = 4), the code clamps the degree to
n_vars * order = 4 — visible both in the logged adjustment and in the degree
actually used at the kernel invocation — not to n_vars = 2 as claimed. -/
theorem degree_clamp_cex :
    (Level.info, LogMsg.degreeReduced 4) ∈
        (execute_job envC3 [] [("Named", some 2)] (some 5) (some 2)).log
    ∧ (Level.info, LogMsg.degreeReduced 2) ∉
        (execute_job envC3 [] [("Named", some 2)] (some 5) (some 2)).log
    ∧ (Invocation.mk [⟨0⟩, ⟨1⟩] 4 2 []) ∈
        (execute_job envC3 [] [("Named", some 2)] (some 5) (some 2)).invoked := by
  decide

/-- C3 as amended: when the defaulted degree exceeds n_vars * order (n_vars the
sum of the per-type counts), `execute_job` clamps the degree to n_vars * order
before generating exponent vectors, logs the adjustment, and every kernel
invocation of the run uses the clamped degree. -/
theorem degree_clamp (env : Env) (store0 : List Relation)
    (filters : List (String × Option Nat)) (degree order : Option Nat)
    (fs : List (String × Nat))
    (h0 : (dictPop "global" filters).isEmpty = false)
    (hfs : processFilters (dictPop "global" filters) = .ok fs)
    (hgt : totalConsts fs * effOrder order < pyOrDefault degree DEFAULT_DEGREE) :
    (Level.info, LogMsg.degreeReduced (totalConsts fs * effOrder order)) ∈
      (execute_job env store0 filters degree order).log
    ∧ ∀ inv ∈ (execute_job env store0 filters degree order).invoked,
        inv.degree = totalConsts fs * effOrder order := by
  have hde : effDegree degree order (totalConsts fs) = totalConsts fs * effOrder order := by
    unfold effDegree
    dsimp only
    rw [if_pos hgt]
  rw [execute_job_of_ok env store0 filters degree order fs h0 hfs]
  constructor
  · have hmem0 : (Level.info, LogMsg.degreeReduced (totalConsts fs * effOrder order)) ∈
        (initState store0 (runLog0 degree order (totalConsts fs))).log := by
      show _ ∈ runLog0 degree order (totalConsts fs)
      unfold runLog0
      rw [if_pos hgt, hde]
      simp
    have hmem1 : (Level.info, LogMsg.degreeReduced (totalConsts fs * effOrder order)) ∈
        (loopState env store0 fs degree order).log :=
      foldl_log_mono _ _ _ _ _ hmem0
    have hmem2 : (Level.info, LogMsg.degreeReduced (totalConsts fs * effOrder order)) ∈
        (finalState env store0 fs degree order).log := by
      unfold finalState
      dsimp only
      exact List.mem_append_left _ hmem1
    cases hl : (finalState env store0 fs degree order).lastNew with
    | none =>
      simp only [hl]
      exact List.mem_append_left _ hmem2
    | some rels =>
      simp only [hl]
      exact hmem2
  · intro inv hinv
    have hinv' : inv ∈ (finalState env store0 fs degree order).invoked := by
      cases hl : (finalState env store0 fs degree order).lastNew <;>
        simpa only [hl] using hinv
    rw [finalState_invoked] at hinv'
    unfold loopState at hinv'
    rw [hde] at hinv'
    refine foldl_invoked_pred env _ _
      (fun i => i.degree = totalConsts fs * effOrder order)
      (fun c old _ => rfl) _ _ ?_ inv hinv'
    intro i hi
    cases hi

theorem degree_clamp_w :
    totalConsts [("Named", 2)] * effOrder (some 2) < pyOrDefault (some 5) DEFAULT_DEGREE
    ∧ (Level.info, LogMsg.degreeReduced (totalConsts [("Named", 2)] * effOrder (some 2))) ∈
        (execute_job envC3 [] [("Named", some 2)] (some 5) (some 2)).log :=
  ⟨by decide,
   (degree_clamp envC3 [] [("Named", some 2)] (some 5) (some 2) [("Named", 2)]
     (by decide) rfl (by decide)).1⟩

/-! ### Claim C4 -/

/-- C4 counterexample: two result lists with different numbers of failed
sub-jobs (1 vs 2) produce identical summaries, so the summary does not report
the count of sub-jobs that failed (and `summarize_results`, which only reads
the result list, performs no novelty re-check and commits nothing). -/
theorem summary_no_failure_count_cex :
    summarize_results [some 2, none] = summarize_results [some 2, none, none]
    ∧ specFailedCount [some 2, none] = 1
    ∧ specFailedCount [some 2, none, none] = 2 := by
  decide

/-- C4 as amended: `summarize_results` emits exactly one summary line carrying
the sum of the truthy per-worker results, preceded by a fixed notice exactly
when at least one sub-job result is falsy (None or 0) — reporting whether, not
how many, sub-jobs failed; it re-runs no novelty check and commits nothing. -/
theorem summary_behavior (results : List (Option Nat)) :
    ((Level.info, LogMsg.workerFailed) ∈ summarize_results results ↔
      results.all pyTruthy = false)
    ∧ (summarize_results results).filterMap
        (fun e => match e with
          | (Level.info, LogMsg.totalFound n) => some n
          | _ => none) = [truthySum results] := by
  unfold summarize_results
  cases hall : results.all pyTruthy with
  | true =>
    refine ⟨?_, ?_⟩
    · simp
    · simp [List.filterMap_cons]
  | false =>
    refine ⟨?_, ?_⟩
    · simp
    · simp [List.filterMap_cons]

end LIReC
